import Mathlib

set_option maxRecDepth 8192

namespace Pdftk

/-- Strings of the Python source are modelled as lists of characters
(a Python `str` is a sequence of code points). -/
abbrev Str := List Char

/-- ASCII uppercase test. Models both `part[0].isupper()` and the
regex class `[A-Z]` of `parser.py` `_parse_single` (lines 116-117);
the two agree on the ASCII tokens of the mini-language. -/
def isAsciiUpper (c : Char) : Bool := 'A' ≤ c && c ≤ 'Z'

/-- Whitespace as recognised by Python `str.split()` (parser.py line 93);
the forms occurring in range strings. -/
def isWs (c : Char) : Bool := c = ' ' || c = '\t' || c = '\n' || c = '\r'

/-- One step of the whitespace splitter: accumulate the current token,
closing it when whitespace is met. -/
def splitWsStep (acc : List Str × Str) (c : Char) : List Str × Str :=
  if isWs c then (if acc.2.isEmpty then acc else (acc.1 ++ [acc.2], []))
  else (acc.1, acc.2 ++ [c])

/-- Python `range_str.split()` (parser.py line 93): split on runs of
whitespace, discarding empty tokens. -/
def splitWs (s : Str) : List Str :=
  let r := s.foldl splitWsStep ([], [])
  if r.2.isEmpty then r.1 else r.1 ++ [r.2]

/-- Value of a nonempty all-ASCII-digit string, else `none`. -/
def digitsVal? (s : Str) : Option Nat :=
  if s ≠ [] ∧ s.all Char.isDigit then
    some (s.foldl (fun a c => 10 * a + (c.toNat - 48)) 0)
  else none

/-- Models Python `int(s)` for the forms arising from whitespace-split
tokens: an optional sign followed by one or more ASCII digits parses to
its value, anything else raises (here: `none`). -/
def pyInt? (s : Str) : Option Int :=
  match s with
  | [] => none
  | c :: rest =>
    if c = '-' then (digitsVal? rest).map (fun n => -(n : Int))
    else if c = '+' then (digitsVal? rest).map (fun n => ((n : Nat) : Int))
    else (digitsVal? s).map (fun n => ((n : Nat) : Int))

/-- The rotation keyword table of `parser.py` (ROTATIONS, lines 45-53),
in Python dict insertion order, which is the order the suffix scan of
`_parse_single` (lines 128-132) tries them. -/
def ROTATIONS : List (Str × Int) :=
  [(['n','o','r','t','h'], 0),
   (['e','a','s','t'], 90),
   (['s','o','u','t','h'], 180),
   (['w','e','s','t'], 270),
   (['l','e','f','t'], -90),
   (['r','i','g','h','t'], 90),
   (['d','o','w','n'], 180)]

def endS : Str := ['e','n','d']
def rendS : Str := ['r','e','n','d']
def evenS : Str := ['e','v','e','n']
def oddS : Str := ['o','d','d']

/-- `PageSpec` of parser.py (lines 18-30): optional handle, 1-indexed
page list, rotation in degrees. -/
structure PageSpec where
  handle : Option Str
  pages : List Int
  rotation : Int
deriving Repr, DecidableEq

/-- The error values the Python code can raise along the modelled paths. -/
inductive PdfError where
  /-- `ValueError(f"Unknown handle: {handle}")`, parser.py line 159. -/
  | unknownHandle (h : Str)
  /-- `ValueError(f"No PDF reader available for handle: {handle}")`, parser.py line 181. -/
  | noReader (h : Option Str)
  /-- `ValueError` raised by Python `int()` on a non-numeric literal, parser.py lines 222/225. -/
  | badInt (s : Str)
  /-- `KeyError` from a dict access `readers[...]` in core.py. -/
  | keyError (h : Str)
  /-- `IndexError` from fetching a page outside the document. -/
  | indexError
  /-- `ValueError("No default reader available")`, core.py line 110. -/
  | noDefaultReader
  /-- `ValueError("Shuffle requires handle-based file references")`, core.py line 226. -/
  | shuffleNeedsHandles
deriving Repr, DecidableEq

/-- A `PdfReader` is modelled by what the core consults: its page count.
The registry `readers` is the Python dict handle -> reader, as an
association list with the dict's (unique-key) entries. -/
def lookupReader (readers : List (Str × Nat)) (h : Str) : Option Nat :=
  (readers.find? (fun kv => kv.1 == h)).map Prod.snd

/-- `PageRangeParser` (parser.py lines 33-70): the readers dict and the
optional default reader. -/
structure PageRangeParser where
  readers : List (Str × Nat)
  default_reader : Option Nat
deriving Repr, DecidableEq

/-- `PageRangeParser.__init__` (parser.py lines 55-70): if no default is
given and exactly one reader is registered, that reader becomes the
default. -/
def mkParser (readers : List (Str × Nat)) (default? : Option Nat) : PageRangeParser :=
  ⟨readers,
   if default?.isNone ∧ readers.length = 1 then (readers.head?).map Prod.snd else default?⟩

/-- `_get_reader` (parser.py lines 244-256): a present handle is looked
up in the dict, an absent one falls back to the default reader. -/
def getReader (p : PageRangeParser) (handle : Option Str) : Option Nat :=
  match handle with
  | some h => lookupReader p.readers h
  | none => p.default_reader

/-- Handle extraction of `_parse_single` (parser.py lines 112-120): a
token starting with an uppercase letter yields the maximal uppercase
prefix as handle, the rest is the body. -/
def extractHandle (part : Str) : Option Str × Str :=
  match part with
  | [] => (none, [])
  | c :: _ =>
    if isAsciiUpper c then
      (some (part.takeWhile isAsciiUpper), part.dropWhile isAsciiUpper)
    else (none, part)

/-- Rotation-suffix stripping of `_parse_single` (parser.py lines
126-132): the first table entry whose keyword ends the body is stripped. -/
def stripRotation (body : Str) : Int × Str :=
  match ROTATIONS.find? (fun kv => kv.1.isSuffixOf body) with
  | some kv => (kv.2, body.take (body.length - kv.1.length))
  | none => (0, body)

/-- Qualifier stripping of `_parse_single` (parser.py lines 134-141):
a trailing `even`, else a trailing `odd`, is stripped. -/
def stripQualifier (body : Str) : Option Str × Str :=
  if evenS.isSuffixOf body then (some evenS, body.take (body.length - 4))
  else if oddS.isSuffixOf body then (some oddS, body.take (body.length - 3))
  else (none, body)

/-- `_resolve_page_number` (parser.py lines 206-225): `end`, `rend`,
`r<N>` and plain integers; no bounds check against `total`. -/
def resolvePageNumber (spec : Str) (total : Nat) : Except PdfError Int :=
  if spec = endS then .ok (total : Int)
  else if spec = rendS then .ok 1
  else if spec.head? = some 'r' then
    match pyInt? spec.tail with
    | some n => .ok ((total : Int) - n + 1)
    | none => .error (.badInt spec.tail)
  else
    match pyInt? spec with
    | some n => .ok n
    | none => .error (.badInt spec)

/-- Python `list(range(s, e + 1))`. -/
def rangeAsc (s e : Int) : List Int := (List.range (e + 1 - s).toNat).map (fun (i : Nat) => s + (i : Int))

/-- Python `list(range(s, e - 1, -1))`. -/
def rangeDesc (s e : Int) : List Int := (List.range (s + 1 - e).toNat).map (fun (i : Nat) => s - (i : Int))

/-- Range expansion of `_parse_page_spec` (parser.py lines 195-200):
inclusive ascending when `s ≤ e`, else inclusive descending. -/
def expandRange (s e : Int) : List Int := if s ≤ e then rangeAsc s e else rangeDesc s e

/-- `_parse_page_spec` (parser.py lines 165-204): empty body yields no
pages (before any reader lookup); otherwise the handle's reader is
required, and the body is a single reference or a `-`-joined pair,
split at the first `-` (Python `spec.split("-", 1)`). -/
def parsePageSpec (p : PageRangeParser) (spec : Str) (handle : Option Str) :
    Except PdfError (List Int) :=
  if spec.isEmpty then .ok []
  else
    match getReader p handle with
    | none => .error (.noReader handle)
    | some total =>
      if spec.contains '-' then
        match resolvePageNumber (spec.takeWhile (fun c => c ≠ '-')) total with
        | .error e => .error e
        | .ok s =>
          match resolvePageNumber ((spec.dropWhile (fun c => c ≠ '-')).tail) total with
          | .error e => .error e
          | .ok e => .ok (expandRange s e)
      else
        match resolvePageNumber spec total with
        | .error e => .error e
        | .ok n => .ok [n]

/-- `_apply_qualifier` (parser.py lines 227-242). -/
def applyQualifier (pages : List Int) (q : Str) : List Int :=
  if q = evenS then pages.filter (fun p => p % 2 == 0)
  else if q = oddS then pages.filter (fun p => p % 2 == 1)
  else pages

/-- `_handle_only` (parser.py lines 153-163): a bare handle token means
every page of that handle's document. -/
def handleOnly (p : PageRangeParser) (h : Str) : Except PdfError PageSpec :=
  match lookupReader p.readers h with
  | none => .error (.unknownHandle h)
  | some total => .ok ⟨some h, (List.range total).map (fun (i : Nat) => (i : Int) + 1), 0⟩

/-- `_parse_single` (parser.py lines 103-151). -/
def parseSingle (p : PageRangeParser) (part : Str) : Except PdfError PageSpec :=
  match extractHandle part with
  | (some h, []) => handleOnly p h
  | (handle, remaining) =>
    let rr := stripRotation remaining
    let qq := stripQualifier rr.2
    match parsePageSpec p qq.2 handle with
    | .error e => .error e
    | .ok pages =>
      match qq.1 with
      | some q => .ok ⟨handle, applyQualifier pages q, rr.1⟩
      | none => .ok ⟨handle, pages, rr.1⟩

/-- The explicit left-to-right effectful loop used all over core.py and
in `parse`: stop at the first error, otherwise collect the results in
order. -/
def forE (l : List α) (f : α → Except PdfError β) : Except PdfError (List β) :=
  match l with
  | [] => .ok []
  | x :: xs =>
    match f x with
    | .error e => .error e
    | .ok y =>
      match forE xs f with
      | .error e => .error e
      | .ok ys => .ok (y :: ys)

/-- `parse` (parser.py lines 72-101): split on whitespace, parse each
token (each parsed token is appended; `_parse_single` never returns a
false-y value). -/
def parse (p : PageRangeParser) (range_str : Str) : Except PdfError (List PageSpec) :=
  forE (splitWs range_str) (parseSingle p)

/-- Modelled from the spec: the page-fetch capability `get_page(handle,
index)` of the external Document Registry collaborator (spec section 6;
implemented by the out-of-scope pypdf reader behind
`reader.pages[page_num - 1]` in core.py). Per spec sections 3 and 9 a
fetch succeeds exactly for `1 ≤ index ≤ page_count` and an out-of-range
index fails at this point. -/
def fetchPage (total : Nat) (page_num : Int) : Except PdfError Int :=
  if 1 ≤ page_num ∧ page_num ≤ (total : Int) then .ok page_num else .error .indexError

/-- Pages `1..total` of the document behind `h`, as output triples
`(handle, page, rotation 0)`: models `for page in reader.pages:
writer.add_page(page)` (core.py lines 95-96). -/
def docPages (h : Str) (total : Nat) : List (Str × Int × Int) :=
  (List.range total).map (fun (i : Nat) => (h, (i : Int) + 1, (0 : Int)))

/-- Lexicographic code-point comparison of Python string `<`. -/
def strLt : Str → Str → Bool
  | [], [] => false
  | [], _ :: _ => true
  | _ :: _, [] => false
  | a :: as, b :: bs => if a < b then true else if b < a then false else strLt as bs

/-- The at-most order induced by `strLt`: `a` is at most `b` when `b`
is not strictly below `a`. -/
def strLe (a b : Str) : Prop := strLt b a = false

/-- Insert a key into an already sorted key list. -/
def insertKey (x : Str) : List Str → List Str
  | [] => [x]
  | y :: ys => if strLt y x then y :: insertKey x ys else x :: y :: ys

/-- Python `sorted(readers.keys())` (core.py line 93), as a stable
insertion sort. -/
def sortKeys (l : List Str) : List Str := l.foldr insertKey []

/-- The default reader chosen by `cat` (core.py lines 84-87): the single
registered entry, if there is exactly one. -/
def defaultPair (input : List (Str × Nat)) : Option (Str × Nat) :=
  if input.length = 1 then input.head? else none

/-- The parser `cat` constructs (core.py line 99). -/
def catParser (input : List (Str × Nat)) : PageRangeParser :=
  mkParser input ((defaultPair input).map Prod.snd)

/-- The reader choice of `cat`'s spec loop (core.py lines 105-111): the
handle's dict entry (a missing key is a `KeyError`), else the default
reader, else `ValueError("No default reader available")`. -/
def specReader (readers : List (Str × Nat)) (dflt : Option (Str × Nat)) (spec : PageSpec) :
    Except PdfError (Str × Nat) :=
  match spec.handle with
  | some h =>
    match lookupReader readers h with
    | none => .error (.keyError h)
    | some total => .ok (h, total)
  | none =>
    match dflt with
    | none => .error .noDefaultReader
    | some hd => .ok hd

/-- The inner spec loop of `cat` (core.py lines 104-121): pick the
reader, then fetch each of the spec's pages in order and attach the
spec's rotation. -/
def catSpecPages (readers : List (Str × Nat)) (dflt : Option (Str × Nat)) (spec : PageSpec) :
    Except PdfError (List (Str × Int × Int)) :=
  match specReader readers dflt spec with
  | .error e => .error e
  | .ok hd =>
    forE spec.pages (fun pn => (fetchPage hd.2 pn).map (fun pg => (hd.1, pg, spec.rotation)))

/-- `cat` (core.py lines 56-127), as the ordered output sequence of
`(handle, page, rotation)` triples the writer receives; the file write
(lines 124-125) happens only after this whole value is an `.ok`. With no
ranges, every document's pages are emitted in ascending handle order;
otherwise each range string is parsed and its specs' pages fetched in
order. -/
def catRange (input : List (Str × Nat)) (rs : Str) :
    Except PdfError (List (Str × Int × Int)) :=
  match parse (catParser input) rs with
  | .error e => .error e
  | .ok specs =>
    match forE specs (catSpecPages input (defaultPair input)) with
    | .error e => .error e
    | .ok parts => .ok parts.flatten

/-- `cat`, the overall operation (core.py lines 89-121); the body of
the ranges branch per range string is `catRange` above. -/
def catOp (input : List (Str × Nat)) (page_ranges : List Str) :
    Except PdfError (List (Str × Int × Int)) :=
  if page_ranges.isEmpty then
    .ok ((sortKeys (input.map Prod.fst)).flatMap
      (fun h => docPages h ((lookupReader input h).getD 0)))
  else
    match forE page_ranges (catRange input) with
    | .error e => .error e
    | .ok perRange => .ok perRange.flatten

/-- The rotation map of `rotate` (core.py lines 157-164): a Python dict
written by `rotation_map[page_num] = spec.rotation`, modelled as an
association list where the newest binding is prepended (so lookup of the
first match is last-write-wins). -/
def buildRotationMap (specs : List PageSpec) : List (Int × Int) :=
  specs.foldl (fun m spec => spec.pages.foldl (fun m' pn => (pn, spec.rotation) :: m') m) []

/-- Lookup in the modelled rotation dict. -/
def rlookup (m : List (Int × Int)) (k : Int) : Option Int :=
  (m.find? (fun kv => kv.1 == k)).map Prod.snd

/-- The output loop of `rotate` (core.py lines 166-172): every page
`1..total` in order, rotated by its map entry if present. -/
def rotateAssemble (total : Nat) (specs : List PageSpec) : List (Int × Int) :=
  (List.range total).map
    (fun (i : Nat) => (((i : Int) + 1), (rlookup (buildRotationMap specs) ((i : Int) + 1)).getD 0))

/-- `rotate` (core.py lines 130-178): parse every range with a parser
whose only reader is the default input document, then assemble; the file
write (lines 175-176) happens only after this value is an `.ok`. -/
def rotateOp (total : Nat) (page_ranges : List Str) : Except PdfError (List (Int × Int)) :=
  match forE page_ranges (parse (mkParser [] (some total))) with
  | .error e => .error e
  | .ok specsList => .ok (rotateAssemble total specsList.flatten)

/-- One shuffle queue (core.py lines 221-231): the spec's handle, its
reader's page count, the pending pages, and the spec's rotation. -/
structure Queue where
  handle : Str
  total : Nat
  pages : List Int
  rotation : Int
deriving Repr, DecidableEq

/-- The iterator-building loop of `shuffle` (core.py lines 223-231): a
handle-less spec raises, an unknown handle is a dict `KeyError`, and
otherwise the spec's pages become one queue. -/
def buildQueues (readers : List (Str × Nat)) : List PageSpec → Except PdfError (List Queue)
  | [] => .ok []
  | s :: ss =>
    match s.handle with
    | none => .error .shuffleNeedsHandles
    | some h =>
      match lookupReader readers h with
      | none => .error (.keyError h)
      | some total =>
        match buildQueues readers ss with
        | .error e => .error e
        | .ok qs => .ok (⟨h, total, s.pages, s.rotation⟩ :: qs)

/-- One pass of the shuffle loop, `for page_iter in page_iterators[:]`
(core.py lines 236-253): each queue in turn either pops and emits its
next page (fetched from its reader) or, if exhausted, is removed from
the live list. -/
def shufflePass : List Queue → Except PdfError (List (Str × Int × Int) × List Queue)
  | [] => .ok ([], [])
  | ⟨_, _, [], _⟩ :: qs => shufflePass qs
  | ⟨h, t, pn :: rest, r⟩ :: qs =>
    match fetchPage t pn with
    | .error e => .error e
    | .ok pg =>
      match shufflePass qs with
      | .error e => .error e
      | .ok (es, qs') => .ok ((h, pg, r) :: es, ⟨h, t, rest, r⟩ :: qs')

/-- Termination measure of the shuffle loop: every pass over a nonempty
live list pops a page or removes a queue. -/
def qMeasure (qs : List Queue) : Nat := (qs.map (fun q => q.pages.length + 1)).sum

theorem shufflePass_measure_le :
    ∀ qs es qs', shufflePass qs = .ok (es, qs') → qMeasure qs' ≤ qMeasure qs := by
  intro qs
  induction qs with
  | nil =>
    intro es qs' h
    simp [shufflePass] at h
    simp [h.2]
  | cons q rest ih =>
    obtain ⟨qh, qt, qpages, qrot⟩ := q
    cases qpages with
    | nil =>
      intro es qs' h
      simp only [shufflePass] at h
      have hle := ih es qs' h
      simp only [qMeasure, List.map_cons, List.sum_cons] at hle ⊢
      omega
    | cons pn ps =>
      intro es qs' h
      simp only [shufflePass] at h
      cases hf : fetchPage qt pn with
      | error e => rw [hf] at h; simp at h
      | ok pg =>
        rw [hf] at h
        cases hrec : shufflePass rest with
        | error e => rw [hrec] at h; simp at h
        | ok pr =>
          obtain ⟨es0, qs0⟩ := pr
          rw [hrec] at h
          simp only [Except.ok.injEq, Prod.mk.injEq] at h
          obtain ⟨he, hq⟩ := h
          subst hq
          have hle := ih es0 qs0 hrec
          simp only [qMeasure, List.map_cons, List.sum_cons, List.length_cons] at hle ⊢
          omega

theorem shufflePass_measure_lt :
    ∀ q qs es qs', shufflePass (q :: qs) = .ok (es, qs') →
      qMeasure qs' < qMeasure (q :: qs) := by
  intro q qs es qs' h
  obtain ⟨qh, qt, qpages, qrot⟩ := q
  cases qpages with
  | nil =>
    simp only [shufflePass] at h
    have hle := shufflePass_measure_le qs es qs' h
    simp only [qMeasure, List.map_cons, List.sum_cons, List.length_nil] at hle ⊢
    omega
  | cons pn ps =>
    simp only [shufflePass] at h
    cases hf : fetchPage qt pn with
    | error e => rw [hf] at h; simp at h
    | ok pg =>
      rw [hf] at h
      cases hrec : shufflePass qs with
      | error e => rw [hrec] at h; simp at h
      | ok pr =>
        obtain ⟨es0, qs0⟩ := pr
        rw [hrec] at h
        simp only [Except.ok.injEq, Prod.mk.injEq] at h
        obtain ⟨he, hq⟩ := h
        subst hq
        have hle := shufflePass_measure_le qs es0 qs0 hrec
        simp only [qMeasure, List.map_cons, List.sum_cons, List.length_cons] at hle ⊢
        omega

/-- The `while page_iterators:` loop of `shuffle` (core.py lines
234-253): repeat passes until no live queue remains. -/
def roundRobin (qs : List Queue) : Except PdfError (List (Str × Int × Int)) :=
  match qs with
  | [] => .ok []
  | q0 :: rest =>
    match hp : shufflePass (q0 :: rest) with
    | .error e => .error e
    | .ok (es, qs') =>
      match roundRobin qs' with
      | .error e => .error e
      | .ok more => .ok (es ++ more)
termination_by qMeasure qs
decreasing_by exact shufflePass_measure_lt q0 rest es qs' hp

/-- `shuffle` (core.py lines 181-259): parse all ranges (with a parser
given no explicit default), build one queue per spec, then round-robin;
the file write (lines 256-257) happens only after this value is `.ok`. -/
def shuffleOp (input : List (Str × Nat)) (page_ranges : List Str) :
    Except PdfError (List (Str × Int × Int)) :=
  match forE page_ranges (parse (mkParser input none)) with
  | .error e => .error e
  | .ok specsList =>
    match buildQueues input specsList.flatten with
    | .error e => .error e
    | .ok queues => roundRobin queues

/-- The contents of the output file after an operation: the Python
`with open(output, "wb")` block runs only after the whole sequence is
assembled, so an error leaves no file. -/
def writtenOutput (r : Except PdfError (List α)) : Option (List α) :=
  match r with
  | .ok out => some out
  | .error _ => none

/-- Shorthand for writing concrete tokens. -/
def lit (s : String) : Str := s.toList

/-- An output triple that references only in-registry pages. -/
def inRangeTriple (input : List (Str × Nat)) (t : Str × Int × Int) : Prop :=
  ∃ total, lookupReader input t.1 = some total ∧ 1 ≤ t.2.1 ∧ t.2.1 ≤ (total : Int)

/-- The rotation the last (rightmost) specification covering page `p`
assigns, or 0 if no specification covers `p`. -/
def lastSpecRotation (specs : List PageSpec) (p : Int) : Int :=
  match specs.reverse.find? (fun s => s.pages.contains p) with
  | some s => s.rotation
  | none => 0

/-- The degrees the rotation keyword `r` denotes (0 when `r` is not a
keyword, matching the default rotation). -/
def rotValue (r : Str) : Int := ((ROTATIONS.find? (fun kv => kv.1 == r)).map Prod.snd).getD 0

theorem digitsVal?_head_isDigit (s : Str) (n : Nat) (h : digitsVal? s = some n) :
    ∃ c rest, s = c :: rest ∧ c.isDigit = true := by
  unfold digitsVal? at h
  split at h
  · next hcond =>
    obtain ⟨hne, hall⟩ := hcond
    cases s with
    | nil => exact absurd rfl hne
    | cons c rest =>
      refine ⟨c, rest, rfl, ?_⟩
      simp [List.all_cons] at hall
      exact hall.1
  · exact absurd h (by simp)

theorem pyInt?_of_digits (s : Str) (n : Nat) (h : digitsVal? s = some n) :
    pyInt? s = some (n : Int) := by
  obtain ⟨c, rest, hs, hd⟩ := digitsVal?_head_isDigit s n h
  subst hs
  have hc1 : ¬ c = '-' := by intro he; rw [he] at hd; exact absurd hd (by decide)
  have hc2 : ¬ c = '+' := by intro he; rw [he] at hd; exact absurd hd (by decide)
  simp [pyInt?, hc1, hc2, h]

/-- A plain digit string resolves to its own integer value, whatever the
page count: `_resolve_page_number` performs no bounds check. -/
theorem resolve_digits (s : Str) (n : Nat) (total : Nat) (h : digitsVal? s = some n) :
    resolvePageNumber s total = .ok (n : Int) := by
  obtain ⟨c, rest, hs, hd⟩ := digitsVal?_head_isDigit s n h
  subst hs
  have h1 : ¬ (c :: rest = endS) := by
    intro he
    rw [show c = 'e' from (List.cons.injEq _ _ _ _ ▸ he).1] at hd
    exact absurd hd (by decide)
  have h2 : ¬ (c :: rest = rendS) := by
    intro he
    rw [show c = 'r' from (List.cons.injEq _ _ _ _ ▸ he).1] at hd
    exact absurd hd (by decide)
  have h3 : ¬ (c = 'r') := by
    intro he
    rw [he] at hd
    exact absurd hd (by decide)
  simp [resolvePageNumber, h1, h2, h3, pyInt?_of_digits _ _ h]

/-- A reverse reference `r<digits>` resolves to `total - n + 1`, whatever
the page count. -/
theorem resolve_rev (s : Str) (n : Nat) (total : Nat) (h : digitsVal? s = some n) :
    resolvePageNumber ('r' :: s) total = .ok ((total : Int) - n + 1) := by
  have h1 : ¬ ('r' :: s = endS) := by intro he; simp [endS] at he
  have h2 : ¬ ('r' :: s = rendS) := by
    intro he
    simp [rendS] at he
    rw [he] at h
    rw [show digitsVal? (['e', 'n', 'd'] : Str) = none from by decide] at h
    exact absurd h (by simp)
  simp [resolvePageNumber, h1, h2, pyInt?_of_digits _ _ h]

theorem takeWhile_append_stop (P : Char → Bool) (l : Str) (c : Char) (t : Str)
    (hl : l.all P = true) (hc : P c = false) :
    (l ++ c :: t).takeWhile P = l ∧ (l ++ c :: t).dropWhile P = c :: t := by
  induction l with
  | nil => simp [List.takeWhile_cons, List.dropWhile_cons, hc]
  | cons a as ih =>
    simp only [List.all_cons, Bool.and_eq_true] at hl
    have hrec := ih hl.2
    simp [List.takeWhile_cons, List.dropWhile_cons, hl.1, hrec.1, hrec.2]

/-- Handle extraction on a token made of an uppercase prefix followed by
a non-uppercase character: exactly the prefix is consumed. -/
theorem extractHandle_append (hs : Str) (c : Char) (t : Str)
    (hu : hs.all isAsciiUpper = true) (hc : isAsciiUpper c = false) :
    extractHandle (hs ++ c :: t) = (if hs.isEmpty then none else some hs, c :: t) := by
  cases hs with
  | nil => simp [extractHandle, hc]
  | cons a as =>
    simp only [List.all_cons, Bool.and_eq_true] at hu
    have htd := takeWhile_append_stop isAsciiUpper as c t hu.2 hc
    simp [extractHandle, List.takeWhile_cons, List.dropWhile_cons, hu.1, htd.1, htd.2]

theorem applyQualifier_nil (q : Str) : applyQualifier [] q = [] := by
  unfold applyQualifier
  split
  · rfl
  · split
    · rfl
    · rfl

/-- A token whose body (after the handle) strips down to nothing — only
rotation and/or qualifier keywords — parses to an empty page list with
the stripped rotation, without consulting any reader. -/
theorem parseSingle_emptyBody (p : PageRangeParser) (hs : Str)
    (hu : hs.all isAsciiUpper = true) (c : Char) (body : Str)
    (hc : isAsciiUpper c = false) (rot : Int) (rem1 : Str) (q? : Option Str)
    (hrot : stripRotation (c :: body) = (rot, rem1))
    (hq : stripQualifier rem1 = (q?, [])) :
    parseSingle p (hs ++ c :: body) =
      .ok ⟨if hs.isEmpty then none else some hs, [], rot⟩ := by
  have hext := extractHandle_append hs c body hu hc
  unfold parseSingle
  rw [hext]
  cases q? with
  | none =>
    cases hhs : hs.isEmpty with
    | true => simp [hhs, hrot, hq, parsePageSpec]
    | false => simp [hhs, hrot, hq, parsePageSpec]
  | some q =>
    cases hhs : hs.isEmpty with
    | true => simp [hhs, hrot, hq, parsePageSpec, applyQualifier_nil]
    | false => simp [hhs, hrot, hq, parsePageSpec, applyQualifier_nil]

theorem takeWhile_all (P : Char → Bool) (l : Str) (h : l.all P = true) :
    l.takeWhile P = l ∧ l.dropWhile P = [] := by
  induction l with
  | nil => simp
  | cons a as ih =>
    simp only [List.all_cons, Bool.and_eq_true] at h
    have hrec := ih h.2
    simp [List.takeWhile_cons, List.dropWhile_cons, h.1, hrec.1, hrec.2]

/-- A token that is nothing but an uppercase handle goes through
`_handle_only`. -/
theorem parseSingle_bareHandle (p : PageRangeParser) (h : Str)
    (hne : h ≠ []) (hu : h.all isAsciiUpper = true) :
    parseSingle p h = handleOnly p h := by
  cases h with
  | nil => exact absurd rfl hne
  | cons a as =>
    simp only [List.all_cons, Bool.and_eq_true] at hu
    have htd := takeWhile_all isAsciiUpper (a :: as) (by simp [List.all_cons, hu.1, hu.2])
    unfold parseSingle extractHandle
    simp [hu.1, htd.1, htd.2]

theorem forE_error_of_mem (l : List α) (f : α → Except PdfError β) (x : α) (e : PdfError)
    (hx : x ∈ l) (hf : f x = .error e) : ∃ e', forE l f = .error e' := by
  induction l with
  | nil => simp at hx
  | cons y ys ih =>
    cases hx with
    | head => exact ⟨e, by simp [forE, hf]⟩
    | tail _ hmem =>
      obtain ⟨e', he'⟩ := ih hmem
      cases hfy : f y with
      | error e2 => exact ⟨e2, by simp [forE, hfy]⟩
      | ok v => exact ⟨e', by simp [forE, hfy, he']⟩

theorem forE_ok_mem (l : List α) (f : α → Except PdfError β) :
    ∀ out, forE l f = .ok out → ∀ y ∈ out, ∃ x ∈ l, f x = .ok y := by
  induction l with
  | nil =>
    intro out h y hy
    simp [forE] at h
    subst h
    simp at hy
  | cons a as ih =>
    intro out h y hy
    simp only [forE] at h
    cases hfa : f a with
    | error e => rw [hfa] at h; simp at h
    | ok v =>
      rw [hfa] at h
      cases hrec : forE as f with
      | error e => rw [hrec] at h; simp at h
      | ok vs =>
        rw [hrec] at h
        simp only [Except.ok.injEq] at h
        subst h
        rcases List.mem_cons.mp hy with hy | hy
        · exact ⟨a, List.mem_cons_self a as, by rw [hfa, hy]⟩
        · obtain ⟨x, hxl, hxf⟩ := ih vs hrec y hy
          exact ⟨x, List.mem_cons_of_mem a hxl, hxf⟩

theorem fetchPage_ok_iff (total : Nat) (p q : Int) :
    fetchPage total p = .ok q ↔ q = p ∧ 1 ≤ p ∧ p ≤ (total : Int) := by
  unfold fetchPage
  split
  · next hcond =>
    constructor
    · intro h
      simp only [Except.ok.injEq] at h
      exact ⟨h.symm, hcond⟩
    · intro h
      rw [h.1]
  · next hcond =>
    constructor
    · intro h
      exact absurd h (by simp)
    · intro h
      exact absurd ⟨h.2.1, h.2.2⟩ hcond

theorem fetchPage_error_of_oob (total : Nat) (p : Int)
    (h : p < 1 ∨ (total : Int) < p) : fetchPage total p = .error .indexError := by
  unfold fetchPage
  split
  · next hcond => omega
  · rfl

theorem lookupReader_of_memKey (input : List (Str × Nat)) (h : Str)
    (hm : h ∈ input.map Prod.fst) : ∃ c, lookupReader input h = some c := by
  induction input with
  | nil => simp at hm
  | cons kv rest ih =>
    by_cases he : kv.1 = h
    · exact ⟨kv.2, by simp [lookupReader, List.find?_cons, he]⟩
    · have hm' : h ∈ rest.map Prod.fst := by
        simp only [List.map_cons, List.mem_cons] at hm
        exact hm.resolve_left (fun hx => he hx.symm)
      obtain ⟨c, hc⟩ := ih hm'
      refine ⟨c, ?_⟩
      simp only [lookupReader, List.find?_cons] at hc ⊢
      have : (kv.1 == h) = false := by simp [he]
      rw [this]
      exact hc

theorem mem_insertKey (a x : Str) (l : List Str) :
    a ∈ insertKey x l → a = x ∨ a ∈ l := by
  induction l with
  | nil => intro h; simp [insertKey] at h; exact Or.inl h
  | cons y ys ih =>
    intro h
    unfold insertKey at h
    split at h
    · rcases List.mem_cons.mp h with h | h
      · exact Or.inr (List.mem_cons.mpr (Or.inl h))
      · rcases ih h with h | h
        · exact Or.inl h
        · exact Or.inr (List.mem_cons.mpr (Or.inr h))
    · rcases List.mem_cons.mp h with h | h
      · exact Or.inl h
      · exact Or.inr h

theorem mem_sortKeys (a : Str) (l : List Str) : a ∈ sortKeys l → a ∈ l := by
  induction l with
  | nil => intro h; simp [sortKeys] at h
  | cons y ys ih =>
    intro h
    rcases mem_insertKey a y (sortKeys ys) h with h | h
    · simp [h]
    · exact List.mem_cons_of_mem y (ih h)

theorem strLt_asymm (a : Str) : ∀ b : Str, strLt a b = true → strLt b a = false := by
  induction a with
  | nil =>
    intro b h
    cases b with
    | nil => exact absurd h (by simp [strLt])
    | cons c cs => rfl
  | cons x xs ih =>
    intro b h
    cases b with
    | nil => exact absurd h (by simp [strLt])
    | cons y ys =>
      unfold strLt at h ⊢
      rcases lt_trichotomy x y with hxy | hxy | hxy
      · rw [if_neg (asymm hxy), if_pos hxy]
      · subst hxy
        rw [if_neg (lt_irrefl x), if_neg (lt_irrefl x)] at h ⊢
        exact ih ys h
      · rw [if_neg (asymm hxy), if_pos hxy] at h
        exact absurd h (by simp)

theorem strLe_trans (x : Str) : ∀ y z : Str,
    strLt y x = false → strLt z y = false → strLt z x = false := by
  induction x with
  | nil =>
    intro y z _ _
    cases z <;> rfl
  | cons a as ih =>
    intro y z h1 h2
    cases y with
    | nil => exact absurd h1 (by simp [strLt])
    | cons b bs =>
      cases z with
      | nil => exact absurd h2 (by simp [strLt])
      | cons c cs =>
        unfold strLt at h1 h2 ⊢
        rcases lt_trichotomy b a with hba | hba | hba
        · rw [if_pos hba] at h1
          exact absurd h1 (by simp)
        · subst hba
          rw [if_neg (lt_irrefl b), if_neg (lt_irrefl b)] at h1
          rcases lt_trichotomy c b with hcb | hcb | hcb
          · rw [if_pos hcb] at h2
            exact absurd h2 (by simp)
          · subst hcb
            rw [if_neg (lt_irrefl c), if_neg (lt_irrefl c)] at h2 ⊢
            exact ih bs cs h1 h2
          · rw [if_neg (asymm hcb), if_pos hcb]
        · rcases lt_trichotomy c b with hcb | hcb | hcb
          · rw [if_pos hcb] at h2
            exact absurd h2 (by simp)
          · subst hcb
            rw [if_neg (asymm hba), if_pos hba]
          · rw [if_neg (asymm (lt_trans hba hcb)), if_pos (lt_trans hba hcb)]

theorem insertKey_perm (x : Str) (l : List Str) : (insertKey x l).Perm (x :: l) := by
  induction l with
  | nil => exact List.Perm.refl _
  | cons y ys ih =>
    unfold insertKey
    split
    · exact (ih.cons y).trans (List.Perm.swap x y ys)
    · exact List.Perm.refl _

theorem sortKeys_perm (l : List Str) : (sortKeys l).Perm l := by
  induction l with
  | nil => exact List.Perm.refl _
  | cons y ys ih => exact (insertKey_perm y (sortKeys ys)).trans (ih.cons y)

theorem insertKey_sorted (x : Str) (l : List Str) (hl : l.Pairwise strLe) :
    (insertKey x l).Pairwise strLe := by
  induction l with
  | nil => simp [insertKey, List.pairwise_cons]
  | cons y ys ih =>
    rw [List.pairwise_cons] at hl
    obtain ⟨hy, hys⟩ := hl
    unfold insertKey
    split
    · next hlt =>
      rw [List.pairwise_cons]
      refine ⟨?_, ih hys⟩
      intro z hz
      rcases mem_insertKey z x ys hz with rfl | hz'
      · exact strLt_asymm y z hlt
      · exact hy z hz'
    · next hlt =>
      have hlt' : strLt y x = false := by simpa using hlt
      rw [List.pairwise_cons]
      refine ⟨?_, List.Pairwise.cons hy hys⟩
      intro z hz
      rcases List.mem_cons.mp hz with rfl | hz'
      · exact hlt'
      · exact strLe_trans x y z hlt' (hy z hz')

theorem sortKeys_sorted (l : List Str) : (sortKeys l).Pairwise strLe := by
  induction l with
  | nil => exact List.Pairwise.nil
  | cons y ys ih => exact insertKey_sorted y (sortKeys ys) ih

theorem defaultPair_lookup (input : List (Str × Nat)) (hd : Str × Nat)
    (h : defaultPair input = some hd) : lookupReader input hd.1 = some hd.2 := by
  unfold defaultPair at h
  split at h
  · next hlen =>
    cases input with
    | nil => simp at hlen
    | cons x rest =>
      cases rest with
      | nil =>
        simp at h
        subst h
        simp [lookupReader, List.find?_cons]
      | cons z zs => simp at hlen
  · exact absurd h (by simp)

theorem specReader_lookup (readers : List (Str × Nat)) (dflt : Option (Str × Nat))
    (spec : PageSpec) (hd0 : Str × Nat)
    (hdflt : ∀ hd, dflt = some hd → lookupReader readers hd.1 = some hd.2)
    (h : specReader readers dflt spec = .ok hd0) :
    lookupReader readers hd0.1 = some hd0.2 := by
  unfold specReader at h
  split at h
  · split at h
    · exact absurd h (by simp)
    · simp only [Except.ok.injEq] at h
      subst h
      simp_all
  · split at h
    · exact absurd h (by simp)
    · simp only [Except.ok.injEq] at h
      subst h
      exact hdflt _ rfl

theorem catSpecPages_inRange (readers : List (Str × Nat)) (dflt : Option (Str × Nat))
    (spec : PageSpec) (ts : List (Str × Int × Int))
    (hdflt : ∀ hd, dflt = some hd → lookupReader readers hd.1 = some hd.2)
    (h : catSpecPages readers dflt spec = .ok ts) :
    ∀ t ∈ ts, inRangeTriple readers t := by
  intro t ht
  unfold catSpecPages at h
  split at h
  · exact absurd h (by simp)
  · next hd0 hsr =>
    obtain ⟨pn, _, hpn⟩ := forE_ok_mem _ _ ts h t ht
    cases hf : fetchPage hd0.2 pn with
    | error e => rw [hf] at hpn; exact absurd hpn (by simp [Except.map])
    | ok pg =>
      rw [hf] at hpn
      simp only [Except.map, Except.ok.injEq] at hpn
      obtain ⟨hpg, hb1, hb2⟩ := (fetchPage_ok_iff hd0.2 pn pg).mp hf
      subst hpn
      refine ⟨hd0.2, specReader_lookup readers dflt spec hd0 hdflt hsr, ?_, ?_⟩
      · show (1 : Int) ≤ pg
        omega
      · show pg ≤ (hd0.2 : Int)
        omega

theorem catOp_ok_inRange (input : List (Str × Nat)) (page_ranges : List Str)
    (out : List (Str × Int × Int)) (h : catOp input page_ranges = .ok out) :
    ∀ t ∈ out, inRangeTriple input t := by
  intro t ht
  unfold catOp at h
  split at h
  · simp only [Except.ok.injEq] at h
    subst h
    rw [List.mem_flatMap] at ht
    obtain ⟨k, hk, htk⟩ := ht
    have hkm : k ∈ input.map Prod.fst := mem_sortKeys k _ hk
    obtain ⟨c, hc⟩ := lookupReader_of_memKey input k hkm
    unfold docPages at htk
    rw [List.mem_map] at htk
    obtain ⟨i, hi, hti⟩ := htk
    rw [List.mem_range, hc] at hi
    simp only [Option.getD_some] at hi
    subst hti
    refine ⟨c, hc, ?_, ?_⟩
    · show (1 : Int) ≤ (i : Int) + 1
      omega
    · show (i : Int) + 1 ≤ (c : Int)
      omega
  · split at h
    · exact absurd h (by simp)
    · next perRange hfe =>
      simp only [Except.ok.injEq] at h
      subst h
      rw [List.mem_flatten] at ht
      obtain ⟨part, hpart, htp⟩ := ht
      obtain ⟨rs, _, hrs⟩ := forE_ok_mem _ _ perRange hfe part hpart
      unfold catRange at hrs
      split at hrs
      · exact absurd hrs (by simp)
      · split at hrs
        · exact absurd hrs (by simp)
        · next parts hsp =>
          simp only [Except.ok.injEq] at hrs
          subst hrs
          rw [List.mem_flatten] at htp
          obtain ⟨ts, hts, htts⟩ := htp
          obtain ⟨spec, _, hspec⟩ := forE_ok_mem _ _ parts hsp ts hts
          exact catSpecPages_inRange input (defaultPair input) spec ts
            (fun hd hhd => defaultPair_lookup input hd hhd) hspec t htts

theorem rlookup_pagesFold (pages : List Int) (rot : Int) (m : List (Int × Int)) (p : Int) :
    rlookup (pages.foldl (fun m' pn => (pn, rot) :: m') m) p =
      if pages.contains p then some rot else rlookup m p := by
  induction pages generalizing m with
  | nil => simp
  | cons x xs ih =>
    simp only [List.foldl_cons]
    rw [ih, List.contains_cons]
    by_cases hx : x = p
    · have h1 : (p == x) = true := by simp [hx]
      have h2 : (x == p) = true := by simp [hx]
      simp only [h1, Bool.true_or, if_true]
      by_cases hxs : xs.contains p
      · rw [if_pos hxs]
      · rw [if_neg hxs]
        simp [rlookup, List.find?_cons, h2]
    · have h1 : (p == x) = false := by simp; exact fun he => hx he.symm
      have h2 : (x == p) = false := by simp [hx]
      simp only [h1, Bool.false_or]
      by_cases hxs : xs.contains p
      · rw [if_pos hxs, if_pos hxs]
      · rw [if_neg hxs, if_neg hxs]
        simp [rlookup, List.find?_cons, h2]

theorem rlookup_buildFold (specs : List PageSpec) (m : List (Int × Int)) (p : Int) :
    rlookup (specs.foldl (fun m' spec =>
        spec.pages.foldl (fun m'' pn => (pn, spec.rotation) :: m'') m') m) p =
      match specs.reverse.find? (fun s => s.pages.contains p) with
      | some s => some s.rotation
      | none => rlookup m p := by
  induction specs generalizing m with
  | nil => simp
  | cons s ss ih =>
    simp only [List.foldl_cons, List.reverse_cons]
    rw [ih, rlookup_pagesFold, List.find?_append]
    cases hf : ss.reverse.find? (fun s => s.pages.contains p) with
    | some t => simp
    | none =>
      simp only [Option.none_or]
      by_cases hc : s.pages.contains p
      · rw [if_pos hc]
        have hd : decide (p ∈ s.pages) = true := by simpa using hc
        simp [List.find?_cons, hd]
      · rw [if_neg hc]
        have hd : decide (p ∈ s.pages) = false := by simpa using hc
        simp [List.find?_cons, hd]

/-- The rotation map lookup of `rotate` is last-write-wins over the
specifications. -/
theorem buildRotationMap_lookup (specs : List PageSpec) (p : Int) :
    (rlookup (buildRotationMap specs) p).getD 0 = lastSpecRotation specs p := by
  unfold buildRotationMap lastSpecRotation
  rw [rlookup_buildFold]
  cases hf : specs.reverse.find? (fun s => s.pages.contains p) with
  | some t => simp
  | none => simp [rlookup]

/-- C3: rotate-overlay outputs exactly pages `1..T` in original order —
no page added, removed, or reordered — where each page's rotation comes
from the left-to-right last-write-wins fold of the specifications
(`lastSpecRotation` is the rotation of the rightmost spec covering the
page), and pages not covered get rotation 0. -/
theorem claim_C3_rotate_overlay (total : Nat) (specs : List PageSpec) :
    rotateAssemble total specs =
      (List.range total).map
        (fun (i : Nat) => ((i : Int) + 1, lastSpecRotation specs ((i : Int) + 1)))
    ∧ (rotateAssemble total specs).map Prod.fst =
        (List.range total).map (fun (i : Nat) => (i : Int) + 1)
    ∧ (rotateAssemble total specs).length = total := by
  have hmain : rotateAssemble total specs =
      (List.range total).map
        (fun (i : Nat) => ((i : Int) + 1, lastSpecRotation specs ((i : Int) + 1))) := by
    unfold rotateAssemble
    congr 1
    funext i
    rw [buildRotationMap_lookup]
  refine ⟨hmain, ?_, ?_⟩
  · rw [hmain, List.map_map]
    rfl
  · rw [hmain]
    simp

/-- C5: the even/odd qualifier filters the already expanded page list —
`even` keeps values with `p % 2 == 0`, `odd` keeps values with
`p % 2 == 1` — as an order-preserving sublist, and on the spec's
examples `1-10even` gives [2,4,6,8,10] while `10-1odd` gives
[9,7,5,3,1]. -/
theorem claim_C5_qualifier_filter :
    (∀ pages : List Int, applyQualifier pages evenS = pages.filter (fun p => p % 2 == 0))
    ∧ (∀ pages : List Int, applyQualifier pages oddS = pages.filter (fun p => p % 2 == 1))
    ∧ (∀ (pages : List Int) (q : Str), (applyQualifier pages q).Sublist pages)
    ∧ parseSingle (mkParser [(lit "A", 10)] none) (lit "1-10even") =
        .ok ⟨none, [2, 4, 6, 8, 10], 0⟩
    ∧ parseSingle (mkParser [(lit "A", 10)] none) (lit "10-1odd") =
        .ok ⟨none, [9, 7, 5, 3, 1], 0⟩ := by
  refine ⟨?_, ?_, ?_, ?_, ?_⟩
  · intro pages
    rfl
  · intro pages
    rfl
  · intro pages q
    unfold applyQualifier
    split
    · exact List.filter_sublist _
    · split
      · exact List.filter_sublist _
      · exact List.Sublist.refl _
  · rfl
  · rfl

/-- C6: `cat` with no page ranges outputs every page of every registered
document — the registry keys in sorted (ascending) handle order, a
permutation of the registered handles, each document contributing its
pages 1..total ascending with rotation 0; for documents A (size a)
and B (size b), in either registry order, that is A's pages then B's,
a + b pages in all. -/
theorem claim_C6_cat_merge_all (a b : Nat) :
    catOp [(lit "A", a), (lit "B", b)] [] = .ok (docPages (lit "A") a ++ docPages (lit "B") b)
    ∧ catOp [(lit "B", b), (lit "A", a)] [] = .ok (docPages (lit "A") a ++ docPages (lit "B") b)
    ∧ (docPages (lit "A") a ++ docPages (lit "B") b).length = a + b
    ∧ (∀ input : List (Str × Nat), catOp input [] =
        .ok ((sortKeys (input.map Prod.fst)).flatMap
          (fun h => docPages h ((lookupReader input h).getD 0))))
    ∧ (∀ l : List Str, (sortKeys l).Pairwise strLe ∧ (sortKeys l).Perm l)
    ∧ (∀ (h : Str) (total : Nat), docPages h total =
        (List.range total).map (fun (i : Nat) => (h, (i : Int) + 1, (0 : Int)))) := by
  refine ⟨?_, ?_, ?_, ?_, ?_, ?_⟩
  · have h1 : catOp [(lit "A", a), (lit "B", b)] [] =
        .ok (docPages (lit "A") a ++ (docPages (lit "B") b ++ [])) := rfl
    rw [h1, List.append_nil]
  · have h1 : catOp [(lit "B", b), (lit "A", a)] [] =
        .ok (docPages (lit "A") a ++ (docPages (lit "B") b ++ [])) := rfl
    rw [h1, List.append_nil]
  · simp [docPages]
  · intro input
    rfl
  · intro l
    exact ⟨sortKeys_sorted l, sortKeys_perm l⟩
  · intro h total
    rfl

/-- C1: one shuffle pass visits the live queues left to right, dropping
a queue the moment its pop finds it empty and otherwise emitting exactly
its next `(handle, page, rotation)` triple, and the loop over passes on
specs `A1-3`, `B1-7` yields exactly
A1,B1,A2,B2,A3,B3,B4,B5,B6,B7. -/
theorem claim_C1_shuffle_round_robin :
    (∀ (h : Str) (t : Nat) (r : Int) (qs : List Queue),
        shufflePass (⟨h, t, [], r⟩ :: qs) = shufflePass qs)
    ∧ (∀ (h : Str) (t : Nat) (pn : Int) (rest : List Int) (r : Int) (qs : List Queue)
        (pg : Int) (es : List (Str × Int × Int)) (qs' : List Queue),
        fetchPage t pn = .ok pg → shufflePass qs = .ok (es, qs') →
        shufflePass (⟨h, t, pn :: rest, r⟩ :: qs) =
          .ok ((h, pg, r) :: es, ⟨h, t, rest, r⟩ :: qs'))
    ∧ roundRobin [] = .ok []
    ∧ shuffleOp [(lit "A", 3), (lit "B", 7)] [lit "A1-3", lit "B1-7"] =
        .ok [(lit "A",1,0),(lit "B",1,0),(lit "A",2,0),(lit "B",2,0),(lit "A",3,0),
             (lit "B",3,0),(lit "B",4,0),(lit "B",5,0),(lit "B",6,0),(lit "B",7,0)] := by
  refine ⟨?_, ?_, ?_, ?_⟩
  · intro h t r qs
    rfl
  · intro h t pn rest r qs pg es qs' hf hrec
    simp [shufflePass, hf, hrec]
  · rw [roundRobin]
  · have h1 : shuffleOp [(lit "A", 3), (lit "B", 7)] [lit "A1-3", lit "B1-7"] =
        roundRobin [⟨lit "A", 3, [1, 2, 3], 0⟩, ⟨lit "B", 7, [1, 2, 3, 4, 5, 6, 7], 0⟩] := by
      rfl
    rw [h1]
    simp [roundRobin, shufflePass, fetchPage]

/-- C1 witness: the pass equation with its hypotheses discharged at a
concrete queue list. -/
theorem claim_C1_shuffle_round_robin_witness :
    shufflePass [⟨lit "A", 3, [1, 2], 0⟩] =
      .ok ([(lit "A", 1, 0)], [⟨lit "A", 3, [2], 0⟩]) :=
  claim_C1_shuffle_round_robin.2.1 (lit "A") 3 1 [2] 0 [] 1 [] []
    (by rfl) (by rfl)

/-- C2: numeric page references resolve to themselves with no bounds
check against the page count (`999` in a 10-page document is carried
through), a fetch succeeds exactly on indices inside `[1, total]` and
returns that index unchanged, an out-of-range index errors at the fetch,
the assembled `cat` of range `999` over a 10-page document fails with
the fetch error, and every triple of a successful `cat` output is
in range for its document. -/
theorem claim_C2_unbounded_until_fetch :
    (∀ (s : Str) (n : Nat) (total : Nat), digitsVal? s = some n →
        resolvePageNumber s total = .ok (n : Int))
    ∧ (∀ (total : Nat) (p q : Int), fetchPage total p = .ok q →
        q = p ∧ 1 ≤ p ∧ p ≤ (total : Int))
    ∧ (∀ (total : Nat) (p : Int), p < 1 ∨ (total : Int) < p →
        fetchPage total p = .error .indexError)
    ∧ resolvePageNumber (lit "999") 10 = .ok 999
    ∧ catOp [(lit "A", 10)] [lit "999"] = .error .indexError
    ∧ (∀ (input : List (Str × Nat)) (ranges : List Str) (out : List (Str × Int × Int)),
        catOp input ranges = .ok out → ∀ t ∈ out, inRangeTriple input t) := by
  refine ⟨?_, ?_, ?_, ?_, ?_, ?_⟩
  · intro s n total h
    exact resolve_digits s n total h
  · intro total p q h
    exact (fetchPage_ok_iff total p q).mp h
  · intro total p h
    exact fetchPage_error_of_oob total p h
  · rfl
  · rfl
  · intro input ranges out h
    exact catOp_ok_inRange input ranges out h

/-- C2 witness: the hypotheses discharged at concrete inputs. -/
theorem claim_C2_unbounded_until_fetch_witness :
    resolvePageNumber (lit "7") 3 = .ok 7
    ∧ fetchPage 3 7 = .error .indexError
    ∧ inRangeTriple [(lit "A", 2)] (lit "A", 1, 0) :=
  ⟨claim_C2_unbounded_until_fetch.1 (lit "7") 7 3 (by decide),
   claim_C2_unbounded_until_fetch.2.2.1 3 7 (by decide),
   claim_C2_unbounded_until_fetch.2.2.2.2.2 [(lit "A", 2)] [] _ (by rfl)
     (lit "A", 1, 0) (by decide)⟩

/-- C9: shuffle rejects every specification list containing a handle-less
specification — building the queues fails with an error —, at the
operation level too, and concretely a handle-less range over a single
registered document fails with the shuffle handle error. -/
theorem claim_C9_shuffle_requires_handles :
    (∀ (readers : List (Str × Nat)) (specs : List PageSpec),
        (∃ s ∈ specs, s.handle = none) → ∃ e, buildQueues readers specs = .error e)
    ∧ (∀ (input : List (Str × Nat)) (ranges : List Str) (specsList : List (List PageSpec)),
        forE ranges (parse (mkParser input none)) = .ok specsList →
        (∃ s ∈ specsList.flatten, s.handle = none) → ∃ e, shuffleOp input ranges = .error e)
    ∧ shuffleOp [(lit "A", 3)] [lit "1-2"] = .error .shuffleNeedsHandles := by
  have part1 : ∀ (readers : List (Str × Nat)) (specs : List PageSpec),
      (∃ s ∈ specs, s.handle = none) → ∃ e, buildQueues readers specs = .error e := by
    intro readers specs
    induction specs with
    | nil => intro h; obtain ⟨s, hs, _⟩ := h; simp at hs
    | cons s ss ih =>
      intro h
      cases hh : s.handle with
      | none => exact ⟨.shuffleNeedsHandles, by simp [buildQueues, hh]⟩
      | some h0 =>
        obtain ⟨s', hs', hnone⟩ := h
        rcases List.mem_cons.mp hs' with rfl | hmem
        · rw [hh] at hnone; exact absurd hnone (by simp)
        · obtain ⟨e, he⟩ := ih ⟨s', hmem, hnone⟩
          cases hl : lookupReader readers h0 with
          | none => exact ⟨.keyError h0, by simp [buildQueues, hh, hl]⟩
          | some total => exact ⟨e, by simp [buildQueues, hh, hl, he]⟩
  refine ⟨part1, ?_, ?_⟩
  · intro input ranges specsList hforE hnone
    obtain ⟨e, he⟩ := part1 input specsList.flatten hnone
    exact ⟨e, by simp [shuffleOp, hforE, he]⟩
  · rfl

/-- C9 witness: the hypotheses discharged at a concrete handle-less
specification. -/
theorem claim_C9_shuffle_requires_handles_witness :
    ∃ e, buildQueues [] [⟨none, [], 0⟩] = .error e :=
  claim_C9_shuffle_requires_handles.1 [] [⟨none, [], 0⟩]
    ⟨⟨none, [], 0⟩, by simp, rfl⟩

theorem all_ne_of_contains_false (s1 : Str) (h : s1.contains '-' = false) :
    s1.all (fun c => c ≠ '-') = true := by
  induction s1 with
  | nil => rfl
  | cons c cs ih =>
    rw [List.contains_cons, Bool.or_eq_false_iff] at h
    obtain ⟨h1, h2⟩ := h
    have hc : c ≠ '-' := by
      intro he
      subst he
      simp at h1
    simp only [List.all_cons, Bool.and_eq_true]
    refine ⟨by simpa using hc, ih h2⟩

theorem contains_append_dash (s1 s2 : Str) :
    (s1 ++ '-' :: s2).contains '-' = true := by
  induction s1 with
  | nil => simp [List.contains_cons]
  | cons c cs ih => simp [List.contains_cons, ih]

/-- A body `s1-s2` (split at the first dash) resolves both sides and
expands the range between them. -/
theorem parsePageSpec_split (p : PageRangeParser) (handle : Option Str) (total : Nat)
    (s1 s2 : Str) (a b : Int)
    (hr : getReader p handle = some total)
    (hns : s1.contains '-' = false)
    (ha : resolvePageNumber s1 total = .ok a)
    (hb : resolvePageNumber s2 total = .ok b) :
    parsePageSpec p (s1 ++ '-' :: s2) handle = .ok (expandRange a b) := by
  have hall := all_ne_of_contains_false s1 hns
  have htw := takeWhile_append_stop (fun c => c ≠ '-') s1 '-' s2 hall (by decide)
  have hne : (s1 ++ '-' :: s2).isEmpty = false := by
    cases s1 <;> rfl
  simp only [parsePageSpec, hne, Bool.false_eq_true, if_false, hr,
    contains_append_dash s1 s2, if_true, htw.1, htw.2, List.tail_cons, ha, hb]

/-- A dash-free nonempty body is a single reference and yields a
one-element page list. -/
theorem parsePageSpec_single (p : PageRangeParser) (handle : Option Str) (total : Nat)
    (s : Str) (a : Int)
    (hr : getReader p handle = some total)
    (hns : s.contains '-' = false) (hne : s ≠ [])
    (ha : resolvePageNumber s total = .ok a) :
    parsePageSpec p s handle = .ok [a] := by
  have hie : s.isEmpty = false := by
    cases s
    · exact absurd rfl hne
    · rfl
  simp only [parsePageSpec, hie, Bool.false_eq_true, if_false, hr, hns, ha]

/-- C4: symbolic references resolve as `end` to T, `rend` to 1,
`r<N>` to `T - N + 1`, digits to themselves; a `start-end` body expands
to the inclusive ascending range when start ≤ end and the inclusive
descending range otherwise (`10-1` gives [10,...,1]); a single
reference yields a one-element list. -/
theorem claim_C4_symbolic_resolution :
    (∀ total : Nat, resolvePageNumber endS total = .ok (total : Int))
    ∧ (∀ total : Nat, resolvePageNumber rendS total = .ok 1)
    ∧ (∀ (total : Nat) (s : Str) (n : Nat), digitsVal? s = some n →
        resolvePageNumber ('r' :: s) total = .ok ((total : Int) - n + 1))
    ∧ (∀ (total : Nat) (s : Str) (n : Nat), digitsVal? s = some n →
        resolvePageNumber s total = .ok (n : Int))
    ∧ (∀ (p : PageRangeParser) (handle : Option Str) (total : Nat) (s1 s2 : Str) (a b : Int),
        getReader p handle = some total → s1.contains '-' = false →
        resolvePageNumber s1 total = .ok a → resolvePageNumber s2 total = .ok b →
        parsePageSpec p (s1 ++ '-' :: s2) handle = .ok (expandRange a b))
    ∧ (∀ (p : PageRangeParser) (handle : Option Str) (total : Nat) (s : Str) (a : Int),
        getReader p handle = some total → s.contains '-' = false → s ≠ [] →
        resolvePageNumber s total = .ok a → parsePageSpec p s handle = .ok [a])
    ∧ expandRange 1 5 = [1, 2, 3, 4, 5]
    ∧ expandRange 10 1 = [10, 9, 8, 7, 6, 5, 4, 3, 2, 1]
    ∧ (∀ a b : Int, a ≤ b → expandRange a b = rangeAsc a b ∧
        (expandRange a b).length = (b + 1 - a).toNat)
    ∧ (∀ a b : Int, b < a → expandRange a b = rangeDesc a b ∧
        (expandRange a b).length = (a + 1 - b).toNat) := by
  refine ⟨?_, ?_, ?_, ?_, ?_, ?_, ?_, ?_, ?_, ?_⟩
  · intro total
    rfl
  · intro total
    rfl
  · intro total s n h
    exact resolve_rev s n total h
  · intro total s n h
    exact resolve_digits s n total h
  · intro p handle total s1 s2 a b hr hns ha hb
    exact parsePageSpec_split p handle total s1 s2 a b hr hns ha hb
  · intro p handle total s a hr hns hne ha
    exact parsePageSpec_single p handle total s a hr hns hne ha
  · rfl
  · rfl
  · intro a b hab
    have he : expandRange a b = rangeAsc a b := by rw [expandRange, if_pos hab]
    exact ⟨he, by rw [he]; simp [rangeAsc]⟩
  · intro a b hba
    have he : expandRange a b = rangeDesc a b := by
      rw [expandRange, if_neg (not_le.mpr hba)]
    exact ⟨he, by rw [he]; simp [rangeDesc]⟩

/-- C4 witness: the hypotheses discharged at concrete references. -/
theorem claim_C4_symbolic_resolution_witness :
    resolvePageNumber (lit "r2") 10 = .ok 9
    ∧ parsePageSpec (mkParser [(lit "A", 10)] none) (lit "10-1") none = .ok (expandRange 10 1)
    ∧ parsePageSpec (mkParser [(lit "A", 10)] none) (lit "7") none = .ok [7]
    ∧ (expandRange 3 7).length = 5 :=
  ⟨claim_C4_symbolic_resolution.2.2.1 10 (lit "2") 2 (by decide),
   claim_C4_symbolic_resolution.2.2.2.2.1 (mkParser [(lit "A", 10)] none) none 10
     (lit "10") (lit "1") 10 1 (by rfl) (by decide) (by rfl) (by rfl),
   claim_C4_symbolic_resolution.2.2.2.2.2.1 (mkParser [(lit "A", 10)] none) none 10
     (lit "7") 7 (by rfl) (by decide) (by decide) (by rfl),
   ((claim_C4_symbolic_resolution.2.2.2.2.2.2.2.2.1 3 7 (by decide)).2.trans (by decide))⟩

/-- C7: every operation either fails with an error — and then the
output file is not written, not even partially — or succeeds, and then
exactly the fully resolved sequence is written; in particular a parse
failure on any range string of any of the three operations makes the
whole operation error with no file written. -/
theorem claim_C7_no_partial_output :
    (∀ (input : List (Str × Nat)) (ranges : List Str) (e : PdfError),
        catOp input ranges = .error e → writtenOutput (catOp input ranges) = none)
    ∧ (∀ (input : List (Str × Nat)) (ranges : List Str) (out : List (Str × Int × Int)),
        catOp input ranges = .ok out → writtenOutput (catOp input ranges) = some out)
    ∧ (∀ (total : Nat) (ranges : List Str) (e : PdfError),
        rotateOp total ranges = .error e → writtenOutput (rotateOp total ranges) = none)
    ∧ (∀ (total : Nat) (ranges : List Str) (out : List (Int × Int)),
        rotateOp total ranges = .ok out → writtenOutput (rotateOp total ranges) = some out)
    ∧ (∀ (input : List (Str × Nat)) (ranges : List Str) (e : PdfError),
        shuffleOp input ranges = .error e → writtenOutput (shuffleOp input ranges) = none)
    ∧ (∀ (input : List (Str × Nat)) (ranges : List Str) (out : List (Str × Int × Int)),
        shuffleOp input ranges = .ok out → writtenOutput (shuffleOp input ranges) = some out)
    ∧ (∀ (input : List (Str × Nat)) (ranges : List Str) (rs : Str) (e : PdfError),
        rs ∈ ranges → parse (catParser input) rs = .error e →
        ∃ e', catOp input ranges = .error e' ∧ writtenOutput (catOp input ranges) = none)
    ∧ (∀ (total : Nat) (ranges : List Str) (rs : Str) (e : PdfError),
        rs ∈ ranges → parse (mkParser [] (some total)) rs = .error e →
        ∃ e', rotateOp total ranges = .error e' ∧ writtenOutput (rotateOp total ranges) = none)
    ∧ (∀ (input : List (Str × Nat)) (ranges : List Str) (rs : Str) (e : PdfError),
        rs ∈ ranges → parse (mkParser input none) rs = .error e →
        ∃ e', shuffleOp input ranges = .error e' ∧
          writtenOutput (shuffleOp input ranges) = none) := by
  refine ⟨?_, ?_, ?_, ?_, ?_, ?_, ?_, ?_, ?_⟩
  · intro input ranges e h
    rw [h]; rfl
  · intro input ranges out h
    rw [h]; rfl
  · intro total ranges e h
    rw [h]; rfl
  · intro total ranges out h
    rw [h]; rfl
  · intro input ranges e h
    rw [h]; rfl
  · intro input ranges out h
    rw [h]; rfl
  · intro input ranges rs e hmem hp
    have hF : catRange input rs = .error e := by
      simp [catRange, hp]
    obtain ⟨e', he'⟩ := forE_error_of_mem ranges (catRange input) rs e hmem hF
    have hne : ranges.isEmpty = false := by
      cases ranges
      · simp at hmem
      · rfl
    have hop : catOp input ranges = .error e' := by
      simp [catOp, hne, he']
    exact ⟨e', hop, by rw [hop]; rfl⟩
  · intro total ranges rs e hmem hp
    obtain ⟨e', he'⟩ := forE_error_of_mem ranges (parse (mkParser [] (some total))) rs e hmem hp
    have hop : rotateOp total ranges = .error e' := by
      simp [rotateOp, he']
    exact ⟨e', hop, by rw [hop]; rfl⟩
  · intro input ranges rs e hmem hp
    obtain ⟨e', he'⟩ := forE_error_of_mem ranges (parse (mkParser input none)) rs e hmem hp
    have hop : shuffleOp input ranges = .error e' := by
      simp [shuffleOp, he']
    exact ⟨e', hop, by rw [hop]; rfl⟩

/-- C7 witness: the hypotheses discharged on a concrete failing range. -/
theorem claim_C7_no_partial_output_witness :
    ∃ e', catOp [] [lit "1"] = .error e' ∧ writtenOutput (catOp [] [lit "1"]) = none :=
  claim_C7_no_partial_output.2.2.2.2.2.2.1 [] [lit "1"] (lit "1") (.noReader none)
    (by simp) (by rfl)

/-- C8 counterexample: the token `Ceast` references handle `C`, absent
from the registry, yet parsing raises no error: the body strips down to
the rotation keyword alone and `_parse_page_spec` returns an empty page
list before ever looking the handle up. -/
theorem claim_C8_counterexample :
    parseSingle (mkParser [(lit "A", 3), (lit "B", 7)] none) (lit "Ceast") =
      .ok ⟨some (lit "C"), [], 90⟩
    ∧ lookupReader [(lit "A", 3), (lit "B", 7)] (lit "C") = none :=
  ⟨rfl, rfl⟩

/-- C8 (amended): a bare unknown handle errors naming the handle; a token
whose page body is nonempty errors naming the handle when the handle is
unknown, and errors when it is handle-less and no default document
exists; `C1-5` against registry A,B errors naming `C`; and the error is
raised for the offending token itself — the token loop stops at the
first failing token. -/
theorem claim_C8_unknown_handle_errors :
    (∀ (p : PageRangeParser) (h : Str), h ≠ [] → h.all isAsciiUpper = true →
        lookupReader p.readers h = none →
        parseSingle p h = .error (.unknownHandle h))
    ∧ (∀ (p : PageRangeParser) (spec : Str) (h : Str), spec ≠ [] →
        lookupReader p.readers h = none →
        parsePageSpec p spec (some h) = .error (.noReader (some h)))
    ∧ (∀ (p : PageRangeParser) (spec : Str), spec ≠ [] → p.default_reader = none →
        parsePageSpec p spec none = .error (.noReader none))
    ∧ parseSingle (mkParser [(lit "A", 3), (lit "B", 7)] none) (lit "C1-5") =
        .error (.noReader (some (lit "C")))
    ∧ (∀ (p : PageRangeParser) (t : Str) (ts : List Str) (e : PdfError),
        parseSingle p t = .error e → forE (t :: ts) (parseSingle p) = .error e) := by
  refine ⟨?_, ?_, ?_, ?_, ?_⟩
  · intro p h hne hu hlk
    rw [parseSingle_bareHandle p h hne hu]
    simp [handleOnly, hlk]
  · intro p spec h hne hlk
    have hie : spec.isEmpty = false := by
      cases spec
      · exact absurd rfl hne
      · rfl
    simp [parsePageSpec, hie, getReader, hlk]
  · intro p spec hne hd
    have hie : spec.isEmpty = false := by
      cases spec
      · exact absurd rfl hne
      · rfl
    simp [parsePageSpec, hie, getReader, hd]
  · rfl
  · intro p t ts e hf
    simp [forE, hf]

/-- C8 witness: the amended statement discharged at concrete tokens. -/
theorem claim_C8_unknown_handle_errors_witness :
    parseSingle (mkParser [] none) (lit "Z") = .error (.unknownHandle (lit "Z"))
    ∧ parsePageSpec (mkParser [] none) (lit "1-5") (some (lit "C")) =
        .error (.noReader (some (lit "C")))
    ∧ parsePageSpec (mkParser [] none) (lit "3") none = .error (.noReader none) :=
  ⟨claim_C8_unknown_handle_errors.1 (mkParser [] none) (lit "Z") (by decide)
      (by decide) (by rfl),
   claim_C8_unknown_handle_errors.2.1 (mkParser [] none) (lit "1-5") (lit "C")
      (by decide) (by rfl),
   claim_C8_unknown_handle_errors.2.2.1 (mkParser [] none) (lit "3") (by decide) (by rfl)⟩

/-- C10: a token whose body is only a qualifier and/or a rotation keyword
(after an optional uppercase handle) parses without error to a `PageSpec`
with an empty page list carrying the keyword rotation, and such a spec
contributes zero pages to an assembled output. -/
theorem claim_C10_keyword_only_tokens :
    (∀ (p : PageRangeParser) (hs : Str), hs.all isAsciiUpper = true →
        ∀ q r : Str, q ∈ [([] : Str), evenS, oddS] →
        r ∈ ([] : Str) :: ROTATIONS.map Prod.fst → q ++ r ≠ [] →
        parseSingle p (hs ++ (q ++ r)) =
          .ok ⟨if hs.isEmpty then none else some hs, [], rotValue r⟩)
    ∧ (∀ (readers : List (Str × Nat)) (dflt : Option (Str × Nat)) (spec : PageSpec),
        spec.pages = [] → (∃ hd, specReader readers dflt spec = .ok hd) →
        catSpecPages readers dflt spec = .ok [])
    ∧ parseSingle (mkParser [(lit "A", 3)] none) (lit "east") = .ok ⟨none, [], 90⟩
    ∧ parseSingle (mkParser [(lit "A", 3), (lit "B", 7)] none) (lit "Aeast") =
        .ok ⟨some (lit "A"), [], 90⟩
    ∧ parseSingle (mkParser [(lit "A", 3), (lit "B", 7)] none) (lit "Aevensouth") =
        .ok ⟨some (lit "A"), [], 180⟩ := by
  refine ⟨?_, ?_, ?_, ?_, ?_⟩
  · intro p hs hu q r hq hr hne
    simp only [List.mem_cons, List.not_mem_nil, or_false] at hq
    simp only [ROTATIONS, List.map_cons, List.map_nil, List.mem_cons,
      List.not_mem_nil, or_false] at hr
    rcases hq with rfl | rfl | rfl
    · rcases hr with rfl | rfl | rfl | rfl | rfl | rfl | rfl | rfl
      · exact absurd rfl hne
      · exact parseSingle_emptyBody p hs hu 'n' (lit "orth") (by decide) 0 [] none
          (by decide) (by decide)
      · exact parseSingle_emptyBody p hs hu 'e' (lit "ast") (by decide) 90 [] none
          (by decide) (by decide)
      · exact parseSingle_emptyBody p hs hu 's' (lit "outh") (by decide) 180 [] none
          (by decide) (by decide)
      · exact parseSingle_emptyBody p hs hu 'w' (lit "est") (by decide) 270 [] none
          (by decide) (by decide)
      · exact parseSingle_emptyBody p hs hu 'l' (lit "eft") (by decide) (-90) [] none
          (by decide) (by decide)
      · exact parseSingle_emptyBody p hs hu 'r' (lit "ight") (by decide) 90 [] none
          (by decide) (by decide)
      · exact parseSingle_emptyBody p hs hu 'd' (lit "own") (by decide) 180 [] none
          (by decide) (by decide)
    · rcases hr with rfl | rfl | rfl | rfl | rfl | rfl | rfl | rfl
      · exact parseSingle_emptyBody p hs hu 'e' (lit "ven") (by decide) 0 evenS (some evenS)
          (by decide) (by decide)
      · exact parseSingle_emptyBody p hs hu 'e' (lit "vennorth") (by decide) 0 evenS (some evenS)
          (by decide) (by decide)
      · exact parseSingle_emptyBody p hs hu 'e' (lit "veneast") (by decide) 90 evenS (some evenS)
          (by decide) (by decide)
      · exact parseSingle_emptyBody p hs hu 'e' (lit "vensouth") (by decide) 180 evenS (some evenS)
          (by decide) (by decide)
      · exact parseSingle_emptyBody p hs hu 'e' (lit "venwest") (by decide) 270 evenS (some evenS)
          (by decide) (by decide)
      · exact parseSingle_emptyBody p hs hu 'e' (lit "venleft") (by decide) (-90) evenS (some evenS)
          (by decide) (by decide)
      · exact parseSingle_emptyBody p hs hu 'e' (lit "venright") (by decide) 90 evenS (some evenS)
          (by decide) (by decide)
      · exact parseSingle_emptyBody p hs hu 'e' (lit "vendown") (by decide) 180 evenS (some evenS)
          (by decide) (by decide)
    · rcases hr with rfl | rfl | rfl | rfl | rfl | rfl | rfl | rfl
      · exact parseSingle_emptyBody p hs hu 'o' (lit "dd") (by decide) 0 oddS (some oddS)
          (by decide) (by decide)
      · exact parseSingle_emptyBody p hs hu 'o' (lit "ddnorth") (by decide) 0 oddS (some oddS)
          (by decide) (by decide)
      · exact parseSingle_emptyBody p hs hu 'o' (lit "ddeast") (by decide) 90 oddS (some oddS)
          (by decide) (by decide)
      · exact parseSingle_emptyBody p hs hu 'o' (lit "ddsouth") (by decide) 180 oddS (some oddS)
          (by decide) (by decide)
      · exact parseSingle_emptyBody p hs hu 'o' (lit "ddwest") (by decide) 270 oddS (some oddS)
          (by decide) (by decide)
      · exact parseSingle_emptyBody p hs hu 'o' (lit "ddleft") (by decide) (-90) oddS (some oddS)
          (by decide) (by decide)
      · exact parseSingle_emptyBody p hs hu 'o' (lit "ddright") (by decide) 90 oddS (some oddS)
          (by decide) (by decide)
      · exact parseSingle_emptyBody p hs hu 'o' (lit "dddown") (by decide) 180 oddS (some oddS)
          (by decide) (by decide)
  · intro readers dflt spec hpages hex
    obtain ⟨hd, hsr⟩ := hex
    unfold catSpecPages
    rw [hsr, hpages]
    rfl
  · rfl
  · rfl
  · rfl

/-- C10 witness: the hypotheses discharged at a concrete qualifier-only
token and an empty-page spec. -/
theorem claim_C10_keyword_only_tokens_witness :
    parseSingle (mkParser [] none) (lit "Aeven") = .ok ⟨some (lit "A"), [], 0⟩
    ∧ catSpecPages [(lit "A", 3)] none ⟨some (lit "A"), [], 90⟩ = .ok [] :=
  ⟨claim_C10_keyword_only_tokens.1 (mkParser [] none) (lit "A") (by decide)
      evenS [] (by simp) (by simp) (by decide),
   claim_C10_keyword_only_tokens.2.1 [(lit "A", 3)] none ⟨some (lit "A"), [], 90⟩
      rfl ⟨(lit "A", 3), rfl⟩⟩

end Pdftk
